import Mathlib

/-!
Verification of the `ProductService` catalog component
(`src/boilerplate/python/services/product_service.py`) against its
natural-language specification.

The store is a CPython `dict[str, Product]`; CPython dicts preserve
insertion order, replace in place on key collision, and append on fresh
keys, so we embed the store as an insertion-ordered association list.
`PhoneProduct` / `PlanProduct` and their pydantic validation live in
`product_controller.py`, which is not among the sources; those parts are
modelled from the specification (§3, §4.3) and say so in their doc
comments.  Prices are numeric values only compared, never combined, so
they are embedded as `Int`.
-/

deriving instance DecidableEq for Except

namespace Catalog

/-- The product discriminator tag (`Kind` enum from `product_controller.py`). -/
inductive Kind
| phone
| plan
deriving DecidableEq, Repr

/-- Modelled from the spec (§3): the phone variant of `Product` from
`product_controller.py` (absent from the sources): SKU, name, brand,
non-negative upfront price, description, highlights, active flag. -/
structure PhoneProduct where
  sku : String
  name : String
  brand : String
  upfront_price : Int
  description : String
  highlights : List String
  active : Bool
deriving DecidableEq, Repr

/-- Modelled from the spec (§3): the plan variant of `Product` from
`product_controller.py` (absent from the sources): SKU, name, optional
network, non-negative monthly fee, description, highlights, active flag. -/
structure PlanProduct where
  sku : String
  name : String
  network : Option String
  monthly_fee : Int
  description : String
  highlights : List String
  active : Bool
deriving DecidableEq, Repr

/-- The `Product` union, discriminated by `kind`. -/
inductive Product
| phone (ph : PhoneProduct)
| plan (pl : PlanProduct)
deriving DecidableEq, Repr

/-- The `kind` field of a product (fixed per variant by the pydantic models). -/
def Product.kind : Product → Kind
| .phone _ => .phone
| .plan _ => .plan

/-- The `sku` field of a product. -/
def Product.sku : Product → String
| .phone ph => ph.sku
| .plan pl => pl.sku

/-- The `name` field of a product. -/
def Product.name : Product → String
| .phone ph => ph.name
| .plan pl => pl.name

/-- The `active` field of a product. -/
def Product.active : Product → Bool
| .phone ph => ph.active
| .plan pl => pl.active

/-- The `description` field of a product. -/
def Product.description : Product → String
| .phone ph => ph.description
| .plan pl => pl.description

/-- The `highlights` field of a product. -/
def Product.highlights : Product → List String
| .phone ph => ph.highlights
| .plan pl => pl.highlights

/-- Python truthiness of an optional string (`None` and `""` are falsy). -/
def strTruthy : Option String → Bool
| none => false
| some s => decide (s ≠ "")

/-- Python `<` on characters compares code points. -/
def charLt (a b : Char) : Bool :=
  decide (a.toNat < b.toNat)

/-- Python `<=` on strings: lexicographic by code point, a proper
initial segment counting as smaller. -/
def charListLe : List Char → List Char → Bool
| [], _ => true
| _ :: _, [] => false
| a :: as, b :: bs =>
  if charLt a b then true else if charLt b a then false else charListLe as bs

/-- Python `a <= b` on strings. -/
def strLe (a b : String) : Bool :=
  charListLe a.toList b.toList

/-- Python `s.lower()`, character by character.  (Python lowercases the
full Unicode range; `Char.toLower` covers ASCII, which the spec's data
stays within.) -/
def strLower (s : String) : String :=
  String.mk (s.toList.map Char.toLower)

/-- Python `s.startswith("-")`: the first character is `'-'`. -/
def strStartsWithDash (s : String) : Bool :=
  match s.toList with
  | c :: _ => c == '-'
  | [] => false

/-- Python `s[1:]`. -/
def strDropOne (s : String) : String :=
  String.mk (s.toList.drop 1)

/-- Python `needle in hay` on strings: substring containment by characters. -/
def strContains (hay needle : String) : Bool :=
  (List.range (hay.toList.length + 1)).any
    (fun i => needle.toList.isPrefixOf (hay.toList.drop i))

/-- Sort keys produced by `_sort_key`: a lowercased name, a numeric
price/fee, or the `float("inf")` fallback for a record lacking the field. -/
inductive SKey
| str (s : String)
| num (n : Int)
| inf
deriving DecidableEq, Repr

/-- Comparison on sort keys, total so it can drive a stable sort.  Within
one `list` call all keys are homogeneous (all `.str`, or `.num`/`.inf`),
where it coincides with Python `<=` on `str` resp. floats with infinity. -/
def keyLe : SKey → SKey → Bool
| .str a, .str b => strLe a b
| .str _, _ => true
| .num _, .str _ => false
| .num a, .num b => decide (a ≤ b)
| .num _, .inf => true
| .inf, .inf => true
| .inf, _ => false

/-- `_sort_key(prod, key)` (product_service.py lines 17-24): name keys
lowercase the name; price/fee keys fall back to infinity on the other
variant (`getattr(prod, ..., float("inf"))`); anything else falls back to
the lowercased name. -/
def _sort_key (prod : Product) (key : String) : SKey :=
  if key = "name" ∨ key = "-name" then
    .str (strLower prod.name)
  else if key = "upfront_price" ∨ key = "-upfront_price" then
    match prod with
    | .phone ph => .num ph.upfront_price
    | .plan _ => .inf
  else if key = "monthly_fee" ∨ key = "-monthly_fee" then
    match prod with
    | .plan pl => .num pl.monthly_fee
    | .phone _ => .inf
  else .str (strLower prod.name)

/-- The phone-only rejection tests of `_matches` (lines 39-45): brand
case-insensitive mismatch (with Python truthiness on the filter), and the
inclusive upfront-price bounds (`is not None` tests, so `0` is honoured). -/
def phoneReject (ph : PhoneProduct) (brand : Option String)
    (min_upfront max_upfront : Option Int) : Bool :=
  (match brand with
   | some b => decide (b ≠ "") && decide (strLower ph.brand ≠ strLower b)
   | none => false)
  || (match min_upfront with
      | some m => decide (ph.upfront_price < m)
      | none => false)
  || (match max_upfront with
      | some m => decide (m < ph.upfront_price)
      | none => false)

/-- The plan-only rejection test of `_matches` (lines 46-48):
`network and prod.network and prod.network.lower() != network.lower()`,
with Python truthiness on both the filter and the stored value. -/
def planNetworkReject (pl : PlanProduct) (network : Option String) : Bool :=
  match network, pl.network with
  | some f, some nw => decide (f ≠ "") && decide (nw ≠ "") && decide (strLower nw ≠ strLower f)
  | _, _ => false

/-- The haystack of the free-text search (lines 51-57): name,
brand-or-empty, network-or-empty, description, highlights joined by
spaces; Python `x or ""` on a string is the identity (empty maps to empty). -/
def qHay (prod : Product) : String :=
  String.intercalate " "
    [prod.name,
     (match prod with | .phone ph => ph.brand | .plan _ => ""),
     (match prod with | .plan pl => pl.network.getD "" | .phone _ => ""),
     prod.description,
     String.intercalate " " prod.highlights]

/-- The free-text rejection test of `_matches` (lines 49-59): a truthy `q`
rejects when the lowercased needle is not a substring of the lowercased hay. -/
def qReject (prod : Product) (q : Option String) : Bool :=
  match q with
  | some s => decide (s ≠ "") && !(strContains (strLower (qHay prod)) (strLower s))
  | none => false

/-- `_matches` (product_service.py lines 26-60): mandatory `active` test,
then kind equality, the phone-only tests, the plan-only network test, and
the free-text test, each skipped when its filter argument is not truthy
(for the numeric bounds: when it is `None`). -/
def _matches (prod : Product) (q : Option String) (kind : Option Kind)
    (brand : Option String) (network : Option String)
    (min_upfront max_upfront : Option Int) : Bool :=
  if !prod.active then false
  else if (match kind with | some k => decide (prod.kind ≠ k) | none => false) then false
  else if (match prod with
           | .phone ph => phoneReject ph brand min_upfront max_upfront
           | .plan _ => false) then false
  else if (match prod with
           | .plan pl => planNetworkReject pl network
           | .phone _ => false) then false
  else !qReject prod q

/-- The comparison `items.sort(key=..., reverse=reverse)` sorts under
(line 102): ascending `keyLe` on the keys, flipped when `reverse` is set.
CPython `list.sort` is stable and `reverse=True` also preserves the
original order of equal keys, so it is the stable sort under this
comparison. -/
def pySortLe (keyStr : String) (rev : Bool) (a b : Product) : Bool :=
  if rev then keyLe (_sort_key b keyStr) (_sort_key a keyStr)
  else keyLe (_sort_key a keyStr) (_sort_key b keyStr)

/-- Insert `a` into `l` before the first element it compares `le` to.
Building block of the stable sort below. -/
def stableInsert (le : α → α → Bool) (a : α) : List α → List α
| [] => [a]
| b :: l => if le a b then a :: b :: l else b :: stableInsert le a l

/-- The stable sort under a total comparison `le`: sorted output
(`stableSort_pairwise`) with equal elements in their original order
(`stableSort_filter`), which per those two theorems pins down the output
of CPython's stable `list.sort` exactly. -/
def stableSort (le : α → α → Bool) : List α → List α
| [] => []
| a :: l => stableInsert le a (stableSort le l)

/-- `items.sort(key=lambda p: _sort_key(p, ...), reverse=reverse)`: the
stable sort of the list under `pySortLe`. -/
def pySort (l : List Product) (keyStr : String) (rev : Bool) : List Product :=
  stableSort (pySortLe keyStr rev) l

/-- Python `l[start:stop]` for a step-1 slice: negative endpoints count
from the end, then both are clipped to `[0, len(l)]`. -/
def pySlice (l : List Product) (start stop : Int) : List Product :=
  let n : Int := l.length
  let a := if start < 0 then max 0 (n + start) else min start n
  let b := if stop < 0 then max 0 (n + stop) else min stop n
  (l.take b.toNat).drop a.toNat

/-- The error taxonomy of the service: `KeyError("Product not found")`,
`ValueError("SKU already exists")`, `ValueError("Invalid kind...")`, and
pydantic `ValidationError`. -/
inductive SvcError
| notFound
| duplicateKey
| invalidKind
| invalidShape
deriving DecidableEq, Repr

/-- An untyped payload dict, one optional slot per field either product
model accepts; `none` is an absent key.  Keys outside the models' fields
are ignored by pydantic and therefore not represented.  An unknown value
under `"kind"` behaves exactly like a missing one in the service (both
fail every `kind == Kind.phone / Kind.plan` test), so both are `none`.
A `network` key explicitly set to `None` is identified with an absent one
(both validate to a plan without a network). -/
structure Payload where
  kind : Option Kind
  sku : Option String
  name : Option String
  brand : Option String
  network : Option String
  upfront_price : Option Int
  monthly_fee : Option Int
  description : Option String
  highlights : Option (List String)
  active : Option Bool
deriving DecidableEq, Repr

/-- Modelled from the spec: `PhoneProduct.model_validate` lives in
`product_controller.py`, which is not among the sources.  Per §4.3 a
payload validates when its `kind` is the variant's literal tag, every
required field is present (§3 lists SKU, name, brand, upfront price,
description, highlights, active; only `network` is marked optional), and
the price is in range (non-negative); otherwise `InvalidShape`. -/
def PhoneProduct.model_validate (p : Payload) : Except SvcError PhoneProduct :=
  match p.kind, p.sku, p.name, p.brand, p.upfront_price, p.description, p.highlights, p.active with
  | some .phone, some sku, some name, some brand, some price, some d, some h, some a =>
    if price < 0 then .error .invalidShape
    else .ok ⟨sku, name, brand, price, d, h, a⟩
  | _, _, _, _, _, _, _, _ => .error .invalidShape

/-- Modelled from the spec: `PlanProduct.model_validate` from
`product_controller.py` (see `PhoneProduct.model_validate`); `network` is
the one optional field (§3), the fee must be non-negative. -/
def PlanProduct.model_validate (p : Payload) : Except SvcError PlanProduct :=
  match p.kind, p.sku, p.name, p.monthly_fee, p.description, p.highlights, p.active with
  | some .plan, some sku, some name, some fee, some d, some h, some a =>
    if fee < 0 then .error .invalidShape
    else .ok ⟨sku, name, p.network, fee, d, h, a⟩
  | _, _, _, _, _, _, _ => .error .invalidShape

/-- `model.model_validate(payload)` after the service has picked `model`
from the payload's kind. -/
def model_validate (k : Kind) (p : Payload) : Except SvcError Product :=
  match k with
  | .phone => (PhoneProduct.model_validate p).map .phone
  | .plan => (PlanProduct.model_validate p).map .plan

/-- `existing.model_dump()`: every field of the record's own variant is a
present key; the other variant's fields are absent. -/
def Product.model_dump : Product → Payload
| .phone ph =>
  ⟨some .phone, some ph.sku, some ph.name, some ph.brand, none,
   some ph.upfront_price, none, some ph.description, some ph.highlights, some ph.active⟩
| .plan pl =>
  ⟨some .plan, some pl.sku, some pl.name, none, pl.network,
   none, some pl.monthly_fee, some pl.description, some pl.highlights, some pl.active⟩

/-- Python `data.update(updates)`: a key present in `updates` overrides
the one in `data`, an absent key leaves it. -/
def Payload.update (base upd : Payload) : Payload :=
  ⟨upd.kind <|> base.kind, upd.sku <|> base.sku, upd.name <|> base.name,
   upd.brand <|> base.brand, upd.network <|> base.network,
   upd.upfront_price <|> base.upfront_price, upd.monthly_fee <|> base.monthly_fee,
   upd.description <|> base.description, upd.highlights <|> base.highlights,
   upd.active <|> base.active⟩

/-- The catalog `dict[str, Product]` as an insertion-ordered association
list, the order CPython dicts iterate in. -/
abbrev Store := List (String × Product)

/-- `self._catalog.get(k)`. -/
def dictGet (s : Store) (k : String) : Option Product :=
  match s.find? (fun kv => kv.1 == k) with
  | some kv => some kv.2
  | none => none

/-- `self._catalog[k] = v`: replace in place when the key is present
(CPython keeps its position), append when it is fresh. -/
def dictInsert (s : Store) (k : String) (v : Product) : Store :=
  if s.any (fun kv => kv.1 == k) then
    s.map (fun kv => if kv.1 == k then (k, v) else kv)
  else s ++ [(k, v)]

/-- `del self._catalog[k]`. -/
def dictDelete (s : Store) (k : String) : Store :=
  s.filter (fun kv => kv.1 != k)

/-- The matching catalog values in insertion order (lines 95-98). -/
def matchItems (store : Store) (q : Option String) (kind : Option Kind)
    (brand network : Option String) (min_upfront max_upfront : Option Int) :
    List Product :=
  (store.map Prod.snd).filter
    (fun p => _matches p q kind brand network min_upfront max_upfront)

/-- Sort-token resolution (lines 100-102): `reverse` is
`sort.startswith("-")` (an empty `sort` short-circuits to `False`, which
the test also gives); `key` is `sort[1:]` under `reverse`, else
`sort or "name"`; the string handed to `_sort_key` per item is `key` or
`"-" + key`.  Returns that string paired with `reverse`. -/
def sortSpec (sort : String) : String × Bool :=
  let rev := strStartsWithDash sort
  let key := if rev then strDropOne sort else (if sort = "" then "name" else sort)
  ((if rev then "-" ++ key else key), rev)

/-- The filtered, sorted sequence `list` builds before paginating
(lines 95-102). -/
def listQ (store : Store) (q : Option String) (kind : Option Kind)
    (brand network : Option String) (min_upfront max_upfront : Option Int)
    (sort : String) : List Product :=
  pySort (matchItems store q kind brand network min_upfront max_upfront)
    (sortSpec sort).1 (sortSpec sort).2

/-- `ProductService.list` (lines 80-107): returns the
`[(page-1)*page_size : (page-1)*page_size + page_size]` window of the
filtered-and-sorted sequence (the start clamped below at 0), paired with
the pre-pagination match count. -/
def list (store : Store) (q : Option String) (kind : Option Kind)
    (brand network : Option String) (min_upfront max_upfront : Option Int)
    (sort : String) (page page_size : Int) : List Product × Nat :=
  let sorted := listQ store q kind brand network min_upfront max_upfront sort
  let total := sorted.length
  let start : Int := max 0 ((page - 1) * page_size)
  let stop : Int := start + page_size
  (pySlice sorted start stop, total)

/-- `ProductService.get` (lines 109-114): a pydantic model instance is
always truthy, so `if not prod` is exactly the absent-key test. -/
def get (s : Store) (sku : String) : Except SvcError Product :=
  match dictGet s sku with
  | some prod => .ok prod
  | none => .error .notFound

/-- `ProductService.create` (lines 119-131).  Mutating operations return
the store alongside the `Except`, because a raise leaves the in-place
`dict` as it stood at that moment. -/
def create (s : Store) (payload : Payload) : Except SvcError Product × Store :=
  match payload.kind with
  | none => (.error .invalidKind, s)
  | some k =>
    match model_validate k payload with
    | .error e => (.error e, s)
    | .ok prod =>
      if (dictGet s prod.sku).isSome then (.error .duplicateKey, s)
      else (.ok prod, dictInsert s prod.sku prod)

/-- `ProductService.update` (lines 133-150): read, merge (`updates or {}`
merges nothing extra when `updates` is empty, so no special case), pick
the model from the merged kind, revalidate, store under the ORIGINAL key. -/
def update (s : Store) (sku : String) (updates : Payload) :
    Except SvcError Product × Store :=
  match dictGet s sku with
  | none => (.error .notFound, s)
  | some existing =>
    let data := Payload.update existing.model_dump updates
    match data.kind with
    | none => (.error .invalidKind, s)
    | some k =>
      match model_validate k data with
      | .error e => (.error e, s)
      | .ok updated => (.ok updated, dictInsert s sku updated)

/-- The loop body of `upsert_many` (lines 154-163): an unrecognized kind
is `continue`d past; a recognized kind that fails `model_validate` raises
out of the loop, keeping the writes already made; a validated record is
written at ITS OWN sku and counted. -/
def upsertLoop : Store → Nat → List Payload → Except SvcError Nat × Store
| s, count, [] => (.ok count, s)
| s, count, it :: rest =>
  match it.kind with
  | none => upsertLoop s count rest
  | some k =>
    match model_validate k it with
    | .error e => (.error e, s)
    | .ok prod => upsertLoop (dictInsert s prod.sku prod) (count + 1) rest

/-- `ProductService.upsert_many` (lines 152-164). -/
def upsert_many (s : Store) (items : List Payload) : Except SvcError Nat × Store :=
  upsertLoop s 0 items

/-- `ProductService.delete` (lines 166-170). -/
def delete (s : Store) (sku : String) : Except SvcError Unit × Store :=
  if (dictGet s sku).isSome then (.ok (), dictDelete s sku)
  else (.error .notFound, s)

/-- `ProductService.count` (lines 175-177). -/
def count (s : Store) : Nat :=
  s.length

/-- A sequence of mutating calls against one `ProductService`. -/
inductive Op
| createOp (p : Payload)
| updateOp (sku : String) (p : Payload)
| upsertManyOp (ps : List Payload)
| deleteOp (sku : String)

/-- The store an operation leaves behind (its raised error, if any, does
not undo in-place writes). -/
def applyOp (s : Store) : Op → Store
| .createOp p => (create s p).2
| .updateOp sku p => (update s sku p).2
| .upsertManyOp ps => (upsert_many s ps).2
| .deleteOp sku => (delete s sku).2

/-- The store after a whole call sequence. -/
def applyOps (s : Store) (ops : List Op) : Store :=
  ops.foldl applyOp s

/-- The sku-indexed map abstraction of catalog contents, used to say
which record was most recently written per SKU. -/
abbrev AbsMap := String → Option Product

/-- Overwrite one key of the abstract map: the semantics of "the record
most recently written for that SKU". -/
def absWrite (m : AbsMap) (k : String) (v : Product) : AbsMap :=
  fun x => if x = k then some v else m x

/-- The writes `create` performs, on the abstract map: a validated record
is written at its SKU unless that SKU is taken; failures write nothing. -/
def absCreate (m : AbsMap) (p : Payload) : AbsMap :=
  match p.kind with
  | none => m
  | some k =>
    match model_validate k p with
    | .error _ => m
    | .ok prod => if (m prod.sku).isSome then m else absWrite m prod.sku prod

/-- The writes `update` performs, on the abstract map: the revalidated
merge of the current record is written at the addressed SKU; failures
write nothing. -/
def absUpdate (m : AbsMap) (sku : String) (upd : Payload) : AbsMap :=
  match m sku with
  | none => m
  | some existing =>
    match (Payload.update existing.model_dump upd).kind with
    | none => m
    | some k =>
      match model_validate k (Payload.update existing.model_dump upd) with
      | .error _ => m
      | .ok prod => absWrite m sku prod

/-- The writes `upsert_many` performs, on the abstract map: left to
right, unrecognized kinds write nothing, a validated record overwrites
its SKU, and a validation failure stops the batch with the earlier
writes kept. -/
def absUpsert (m : AbsMap) : List Payload → AbsMap
| [] => m
| it :: rest =>
  match it.kind with
  | none => absUpsert m rest
  | some k =>
    match model_validate k it with
    | .error _ => m
    | .ok prod => absUpsert (absWrite m prod.sku prod) rest

/-- The write `delete` performs, on the abstract map. -/
def absDelete (m : AbsMap) (sku : String) : AbsMap :=
  match m sku with
  | none => m
  | some _ => fun x => if x = sku then none else m x

/-- One operation's writes on the abstract map. -/
def absOp (m : AbsMap) : Op → AbsMap
| .createOp p => absCreate m p
| .updateOp sku p => absUpdate m sku p
| .upsertManyOp ps => absUpsert m ps
| .deleteOp sku => absDelete m sku

/-- Per SKU, the record most recently written during a call sequence (or
what the start store held, if the sequence never wrote the SKU; `none`
once deleted and not rewritten). -/
def lastWritten (m : AbsMap) (ops : List Op) : AbsMap :=
  ops.foldl absOp m

/-- The stored-record/storage-key agreement invariant of claim C2, as a
decidable check: every record sits under its own `sku` field. -/
def skuOk (s : Store) : Bool :=
  s.all (fun kv => kv.2.sku == kv.1)

/-- Fixture: an active phone record. -/
def phA : PhoneProduct :=
  ⟨"p1", "Alpha", "Acme", 500, "flagship", ["fast"], true⟩

/-- Fixture: `phA` after an update that smuggled in the sku `"p2"`. -/
def phA2 : PhoneProduct :=
  ⟨"p2", "Alpha", "Acme", 500, "flagship", ["fast"], true⟩

/-- Fixture: an active plan record without a network value. -/
def plB : PlanProduct :=
  ⟨"s1", "Beta", none, 20, "basic plan", [], true⟩

/-- Fixture: an active plan record on network `"NetA"`. -/
def plC : PlanProduct :=
  ⟨"s2", "Gamma", some "NetA", 30, "premium plan", [], true⟩

/-- Fixture: a three-record catalog. -/
def st0 : Store :=
  [("p1", .phone phA), ("s1", .plan plB), ("s2", .plan plC)]

/-- Fixture: a one-phone catalog. -/
def st1 : Store :=
  [("p1", .phone phA)]

/-- Fixture: a valid phone payload, sku `"p9"`. -/
def goodP : Payload :=
  ⟨some .phone, some "p9", some "Zed", some "Acme", none, some 100, none,
   some "entry", some [], some true⟩

/-- Fixture: the record `goodP` validates to. -/
def goodProd : Product :=
  .phone ⟨"p9", "Zed", "Acme", 100, "entry", [], true⟩

/-- Fixture: a payload with an unrecognized kind (skipped by
`upsert_many`). -/
def badKindP : Payload :=
  ⟨none, some "px", some "Bad", some "Acme", none, some 100, none,
   some "", some [], some true⟩

/-- Fixture: a phone payload with a negative price: recognized kind,
fails shape validation. -/
def badShapeP : Payload :=
  ⟨some .phone, some "py", some "Neg", some "Acme", none, some (-5), none,
   some "", some [], some true⟩

/-- Fixture: a partial update that only changes the `sku` field. -/
def updSkuP : Payload :=
  ⟨none, some "p2", none, none, none, none, none, none, none, none⟩

/-- Fixture: a phone payload reusing the already-taken sku `"p1"`. -/
def dupP : Payload :=
  ⟨some .phone, some "p1", some "Other", some "Brand", none, some 1, none,
   some "d", some [], some true⟩

/-- One payload either carries no recognized kind (so `upsert_many` skips
it) or validates against its kind's model. -/
def validOrSkipped (it : Payload) : Bool :=
  match it.kind with
  | none => true
  | some k =>
    match model_validate k it with
    | .ok _ => true
    | .error _ => false

/-- Every payload of a batch is skippable or valid: under this condition
`upsert_many` raises nothing. -/
def allValid (items : List Payload) : Bool :=
  items.all validOrSkipped

/-! Properties of the code-point comparison. -/

theorem charToNat_inj {a b : Char} (h : a.toNat = b.toNat) : a = b := by
  rcases a with ⟨⟨av⟩, ha⟩; rcases b with ⟨⟨bv⟩, hb⟩
  simp [Char.toNat, UInt32.toNat] at h
  have : av = bv := BitVec.eq_of_toNat_eq h
  subst this; rfl

theorem charListLe_refl : ∀ l, charListLe l l = true
| [] => rfl
| a :: l => by
  simp only [charListLe, charLt, decide_eq_true_eq]
  rw [if_neg (by omega), if_neg (by omega)]
  exact charListLe_refl l

theorem charListLe_total : ∀ a b, charListLe a b = true ∨ charListLe b a = true
| [], _ => Or.inl rfl
| _ :: _, [] => Or.inr rfl
| a :: as, b :: bs => by
  simp only [charListLe, charLt, decide_eq_true_eq]
  rcases Nat.lt_trichotomy a.toNat b.toNat with h | h | h
  · exact Or.inl (by rw [if_pos h])
  · rw [if_neg (by omega), if_neg (by omega), if_neg (by omega), if_neg (by omega)]
    exact charListLe_total as bs
  · exact Or.inr (by rw [if_pos h])

theorem charListLe_trans : ∀ a b c, charListLe a b = true → charListLe b c = true →
    charListLe a c = true
| [], _, _, _, _ => rfl
| _ :: _, [], _, h1, _ => by simp [charListLe] at h1
| _ :: _, _ :: _, [], _, h2 => by simp [charListLe] at h2
| a :: as, b :: bs, c :: cs, h1, h2 => by
  simp only [charListLe, charLt, decide_eq_true_eq] at h1 h2 ⊢
  rcases Nat.lt_trichotomy a.toNat b.toNat with hab | hab | hab
  · rcases Nat.lt_trichotomy b.toNat c.toNat with hbc | hbc | hbc
    · rw [if_pos (by omega)]
    · have hbc2 : b = c := charToNat_inj hbc
      subst hbc2
      rw [if_pos hab]
    · rw [if_neg (by omega), if_pos hbc] at h2
      simp at h2
  · have hab2 : a = b := charToNat_inj hab
    subst hab2
    rw [if_neg (by omega), if_neg (by omega)] at h1
    rcases Nat.lt_trichotomy a.toNat c.toNat with hac | hac | hac
    · rw [if_pos hac]
    · have hac2 : a = c := charToNat_inj hac
      subst hac2
      rw [if_neg (by omega), if_neg (by omega)] at h2 ⊢
      exact charListLe_trans as bs cs h1 h2
    · rw [if_neg (by omega), if_pos hac] at h2
      simp at h2
  · rw [if_neg (by omega), if_pos hab] at h1
    simp at h1

theorem keyLe_refl : ∀ k, keyLe k k = true
| .str s => charListLe_refl s.toList
| .num _ => by simp [keyLe]
| .inf => rfl

theorem keyLe_total : ∀ a b, keyLe a b = true ∨ keyLe b a = true := by
  intro a b
  cases a <;> cases b <;> simp [keyLe, strLe]
  all_goals first
  | exact charListLe_total _ _
  | omega

theorem keyLe_trans : ∀ a b c, keyLe a b = true → keyLe b c = true → keyLe a c = true := by
  intro a b c h1 h2
  cases a <;> cases b <;> cases c <;> simp_all [keyLe, strLe]
  all_goals first
  | exact charListLe_trans _ _ _ h1 h2
  | omega

theorem pySortLe_refl {ks : String} {rev : Bool} {a b : Product}
    (h : _sort_key a ks = _sort_key b ks) : pySortLe ks rev a b = true := by
  unfold pySortLe
  cases rev <;> simp [h, keyLe_refl]

theorem pySortLe_total (ks : String) (rev : Bool) (a b : Product) :
    pySortLe ks rev a b = true ∨ pySortLe ks rev b a = true := by
  unfold pySortLe
  cases rev <;> simp
  · exact keyLe_total _ _
  · exact (keyLe_total _ _).symm

theorem pySortLe_trans (ks : String) (rev : Bool) (a b c : Product)
    (h1 : pySortLe ks rev a b = true) (h2 : pySortLe ks rev b c = true) :
    pySortLe ks rev a c = true := by
  unfold pySortLe at h1 h2 ⊢
  cases rev <;> simp_all
  · exact keyLe_trans _ _ _ h1 h2
  · exact keyLe_trans _ _ _ h2 h1

/-! The stable sort: permutation, sortedness, and stability. -/

theorem mem_stableInsert {α : Type} (le : α → α → Bool) (a x : α) :
    ∀ l, x ∈ stableInsert le a l ↔ x = a ∨ x ∈ l
| [] => by simp [stableInsert]
| b :: l => by
  simp only [stableInsert]
  by_cases h : le a b = true
  · rw [if_pos h]
    simp [List.mem_cons]
  · rw [if_neg h]
    simp only [List.mem_cons, mem_stableInsert le a x l]
    tauto

theorem stableInsert_perm {α : Type} (le : α → α → Bool) (a : α) :
    ∀ l, List.Perm (stableInsert le a l) (a :: l)
| [] => List.Perm.refl _
| b :: l => by
  simp only [stableInsert]
  by_cases h : le a b = true
  · rw [if_pos h]
  · rw [if_neg h]
    exact ((stableInsert_perm le a l).cons b).trans (List.Perm.swap a b l)

theorem stableSort_perm {α : Type} (le : α → α → Bool) :
    ∀ l, List.Perm (stableSort le l) l
| [] => List.Perm.refl _
| a :: l => (stableInsert_perm le a (stableSort le l)).trans ((stableSort_perm le l).cons a)

theorem mem_stableSort {α : Type} (le : α → α → Bool) (x : α) (l : List α) :
    x ∈ stableSort le l ↔ x ∈ l :=
  (stableSort_perm le l).mem_iff

theorem length_stableSort {α : Type} (le : α → α → Bool) (l : List α) :
    (stableSort le l).length = l.length :=
  (stableSort_perm le l).length_eq

theorem pairwise_stableInsert {α : Type} (le : α → α → Bool)
    (htrans : ∀ a b c, le a b = true → le b c = true → le a c = true)
    (htot : ∀ a b, le a b = true ∨ le b a = true) (a : α) :
    ∀ l, l.Pairwise (fun x y => le x y = true) →
      (stableInsert le a l).Pairwise (fun x y => le x y = true)
| [], _ => by simp [stableInsert]
| b :: l, h => by
  rcases List.pairwise_cons.mp h with ⟨hb, hl⟩
  simp only [stableInsert]
  by_cases hab : le a b = true
  · rw [if_pos hab]
    refine List.pairwise_cons.mpr ⟨?_, h⟩
    intro x hx
    rcases List.mem_cons.mp hx with rfl | hx
    · exact hab
    · exact htrans a b x hab (hb x hx)
  · rw [if_neg hab]
    refine List.pairwise_cons.mpr ⟨?_, pairwise_stableInsert le htrans htot a l hl⟩
    intro x hx
    rcases (mem_stableInsert le a x l).mp hx with rfl | hx
    · rcases htot x b with h' | h'
      · exact absurd h' hab
      · exact h'
    · exact hb x hx

theorem pairwise_stableSort {α : Type} (le : α → α → Bool)
    (htrans : ∀ a b c, le a b = true → le b c = true → le a c = true)
    (htot : ∀ a b, le a b = true ∨ le b a = true) :
    ∀ l, (stableSort le l).Pairwise (fun x y => le x y = true)
| [] => List.Pairwise.nil
| a :: l => pairwise_stableInsert le htrans htot a _ (pairwise_stableSort le htrans htot l)

theorem filter_stableInsert {α κ : Type} (le : α → α → Bool) (kf : α → κ)
    [DecidableEq κ] (a : α) (kd : κ) (hrefl : ∀ b, kf b = kf a → le a b = true) :
    ∀ l, (stableInsert le a l).filter (fun x => decide (kf x = kd)) =
      if kf a = kd then a :: l.filter (fun x => decide (kf x = kd))
      else l.filter (fun x => decide (kf x = kd))
| [] => by
  by_cases h : kf a = kd <;> simp [stableInsert, List.filter_cons, h]
| b :: l => by
  simp only [stableInsert]
  by_cases hab : le a b = true
  · rw [if_pos hab]
    by_cases ha : kf a = kd <;> simp [List.filter_cons, ha]
  · rw [if_neg hab]
    have hbne : kf b ≠ kf a := fun contra => hab (hrefl b contra)
    rw [List.filter_cons, filter_stableInsert le kf a kd hrefl l]
    by_cases ha : kf a = kd <;> by_cases hbk : kf b = kd <;>
      simp [ha, hbk, List.filter_cons]
    exact absurd (hbk.trans ha.symm) hbne

theorem filter_stableSort {α κ : Type} (le : α → α → Bool) (kf : α → κ)
    [DecidableEq κ] (kd : κ) (hrefl : ∀ a b, kf a = kf b → le a b = true) :
    ∀ l, (stableSort le l).filter (fun x => decide (kf x = kd)) =
      l.filter (fun x => decide (kf x = kd))
| [] => rfl
| a :: l => by
  show (stableInsert le a (stableSort le l)).filter _ = _
  rw [filter_stableInsert le kf a kd (fun b hb => hrefl a b hb.symm),
    filter_stableSort le kf kd hrefl l]
  by_cases ha : kf a = kd <;> simp [List.filter_cons, ha]

/-! Membership plumbing for `list`. -/

theorem list_fst (store : Store) (q : Option String) (kind : Option Kind)
    (brand network : Option String) (minU maxU : Option Int) (sort : String)
    (page ps : Int) :
    (list store q kind brand network minU maxU sort page ps).1 =
      pySlice (listQ store q kind brand network minU maxU sort)
        (max 0 ((page - 1) * ps)) (max 0 ((page - 1) * ps) + ps) := rfl

theorem list_snd (store : Store) (q : Option String) (kind : Option Kind)
    (brand network : Option String) (minU maxU : Option Int) (sort : String)
    (page ps : Int) :
    (list store q kind brand network minU maxU sort page ps).2 =
      (listQ store q kind brand network minU maxU sort).length := rfl

theorem mem_pySlice {l : List Product} {a b : Int} {p : Product}
    (h : p ∈ pySlice l a b) : p ∈ l := by
  unfold pySlice at h
  exact List.mem_of_mem_take (List.mem_of_mem_drop h)

theorem mem_listQ {p : Product} {store : Store} {q : Option String} {kind : Option Kind}
    {brand network : Option String} {minU maxU : Option Int} {sort : String}
    (h : p ∈ listQ store q kind brand network minU maxU sort) :
    _matches p q kind brand network minU maxU = true := by
  unfold listQ pySort at h
  have h2 := (mem_stableSort _ _ _).mp h
  unfold matchItems at h2
  exact (List.mem_filter.mp h2).2

theorem matches_active {p : Product} {q : Option String} {kind : Option Kind}
    {brand network : Option String} {minU maxU : Option Int}
    (h : _matches p q kind brand network minU maxU = true) : p.active = true := by
  cases hA : p.active
  · unfold _matches at h
    rw [hA] at h
    simp at h
  · rfl

/-- C7: for every store state and every combination of filter, sort and
pagination arguments, no record with `active = false` appears among the
items `list` returns: the `active == true` test is applied
unconditionally, regardless of which other filters are set. -/
theorem C7_inactive_never_listed (store : Store) (q : Option String) (kind : Option Kind)
    (brand network : Option String) (minU maxU : Option Int) (sort : String)
    (page ps : Int) :
    (list store q kind brand network minU maxU sort page ps).1.all Product.active = true := by
  rw [List.all_eq_true]
  intro p hp
  rw [list_fst] at hp
  exact matches_active (mem_listQ (mem_pySlice hp))

/-- C10: for every store state, filter set, sort token and positive page
size, calling `list` with `page ≤ 0` returns the same `(items, total)` as
`page = 1`: the window start `max(0, (page-1)*pageSize)` clamps to 0, so
non-positive pages yield the first page, not an error or an empty slice. -/
theorem C10_nonpositive_page_gives_first (store : Store) (q : Option String)
    (kind : Option Kind) (brand network : Option String) (minU maxU : Option Int)
    (sort : String) (page ps : Int) (hps : 0 < ps) (hpage : page ≤ 0) :
    list store q kind brand network minU maxU sort page ps =
      list store q kind brand network minU maxU sort 1 ps := by
  have h1 : (page - 1) * ps ≤ 0 := mul_nonpos_iff.mpr (Or.inr ⟨by omega, by omega⟩)
  simp only [list]
  rw [show max 0 ((page - 1) * ps) = max 0 ((1 - 1) * ps) by
    rw [max_eq_left h1]
    norm_num]

/-- C10 witness at a concrete call: page 0 equals page 1 on the fixture
store. -/
theorem C10_witness :
    list st0 none none none none none none "name" 0 2 =
      list st0 none none none none none none "name" 1 2 :=
  C10_nonpositive_page_gives_first st0 none none none none none none "name" 0 2
    (by decide) (by decide)

/-- The network criterion is the only part of `_matches` that reads the
`network` filter, so two filter values that reject alike match alike. -/
theorem matches_plan_network_congr (pl : PlanProduct) (q : Option String)
    (kind : Option Kind) (brand : Option String) (minU maxU : Option Int)
    (n1 n2 : Option String) (h : planNetworkReject pl n1 = planNetworkReject pl n2) :
    _matches (.plan pl) q kind brand n1 minU maxU =
      _matches (.plan pl) q kind brand n2 minU maxU := by
  simp only [_matches, h]

/-- A true network rejection forces `_matches` to `false` outright. -/
theorem matches_plan_network_reject (pl : PlanProduct) (q : Option String)
    (kind : Option Kind) (brand : Option String) (minU maxU : Option Int)
    (net : Option String) (h : planNetworkReject pl net = true) :
    _matches (.plan pl) q kind brand net minU maxU = false := by
  simp only [_matches, h]
  simp [ite_self]

/-- C3 counterexample: the claim says a plan without a network value never
appears in the results once the `network` filter is set; but the stored
plan `plB` (network `None`) passes `network and prod.network and ...`
vacuously and is returned. -/
theorem C3_counterexample :
    list [("s1", Product.plan plB)] none none none (some "NetA") none none "name" 1 12 =
      ([Product.plan plB], 1) := by decide

/-- C3 as amended: with the `network` filter set (to a truthy value), a
plan record with an absent or empty network value is NOT excluded by the
criterion — the filter is a no-op for it; a plan with a truthy network
value matches by case-insensitive equality: on equal lowercasings the
criterion is again a no-op, on differing lowercasings the record is
excluded from the results. -/
theorem C3_network_filter (pl : PlanProduct) (q : Option String) (kind : Option Kind)
    (brand : Option String) (f : String) (minU maxU : Option Int) :
    ((pl.network = none ∨ pl.network = some "") →
      ∀ net : Option String, _matches (.plan pl) q kind brand net minU maxU =
        _matches (.plan pl) q kind brand none minU maxU) ∧
    (∀ v, pl.network = some v → strLower v = strLower f →
      _matches (.plan pl) q kind brand (some f) minU maxU =
        _matches (.plan pl) q kind brand none minU maxU) ∧
    (∀ v, pl.network = some v → v ≠ "" → f ≠ "" → strLower v ≠ strLower f →
      _matches (.plan pl) q kind brand (some f) minU maxU = false) := by
  refine ⟨?_, ?_, ?_⟩
  · intro hnet net
    apply matches_plan_network_congr
    rcases hnet with h | h <;> cases net <;> simp [planNetworkReject, h]
  · intro v hv hlow
    apply matches_plan_network_congr
    simp [planNetworkReject, hv, hlow]
  · intro v hv hvne hfne hlow
    apply matches_plan_network_reject
    simp [planNetworkReject, hv, hvne, hfne, hlow]

/-- C3 witness: a plan on network `"NetA"` is excluded by the filter
`"NetB"`. -/
theorem C3_witness :
    _matches (.plan plC) none none none (some "NetB") none none = false :=
  (C3_network_filter plC none none none "NetB" none none).2.2 "NetA" rfl
    (by decide) (by decide) (by decide)

/-- C4 counterexample: the claim says a plan record never appears in the
results when `brand` or an upfront bound is set; but the phone-only tests
sit inside `isinstance(prod, PhoneProduct)`, so the stored plan is
returned despite `brand="Acme"`, `min_upfront=0`, `max_upfront=10`. -/
theorem C4_counterexample :
    list [("s1", Product.plan plB)] none none (some "Acme") none (some 0) (some 10)
      "name" 1 12 = ([Product.plan plB], 1) := by decide

/-- C4 as amended: the phone-only filters (`brand`, `minUpfront`,
`maxUpfront`) are no-ops for plan records — a plan's membership in the
results is unchanged by them, rather than the record being excluded. -/
theorem C4_phone_filters_noop_for_plans (pl : PlanProduct) (q : Option String)
    (kind : Option Kind) (brand network : Option String) (minU maxU : Option Int) :
    _matches (.plan pl) q kind brand network minU maxU =
      _matches (.plan pl) q kind none network none none := by
  cases kind with
  | none => rfl
  | some k => simp only [_matches]

/-! Dictionary and validation plumbing for the write paths. -/

theorem dictGet_some_mem {s : Store} {k : String} {v : Product}
    (h : dictGet s k = some v) : (k, v) ∈ s := by
  unfold dictGet at h
  cases hf : s.find? (fun kv => kv.1 == k) with
  | none => rw [hf] at h; simp at h
  | some kv =>
    rw [hf] at h
    injection h with h
    have hmem := List.mem_of_find?_eq_some hf
    have hbeq := List.find?_some hf
    rcases kv with ⟨k', v'⟩
    have : k' = k := by simpa using hbeq
    subst this
    subst h
    exact hmem

theorem dictGet_some_any {s : Store} {k : String} {v : Product}
    (h : dictGet s k = some v) : s.any (fun kv => kv.1 == k) = true := by
  rw [List.any_eq_true]
  exact ⟨(k, v), dictGet_some_mem h, by simp⟩

theorem dictInsert_keys {s : Store} {k : String} {v w : Product}
    (h : dictGet s k = some w) :
    (dictInsert s k v).map Prod.fst = s.map Prod.fst := by
  unfold dictInsert
  rw [if_pos (dictGet_some_any h)]
  rw [List.map_map]
  apply List.map_congr_left
  intro kv _
  by_cases hk : kv.1 = k
  · simp [hk]
  · simp [hk]

theorem skuOk_mem {s : Store} {k : String} {v : Product}
    (hs : skuOk s = true) (h : (k, v) ∈ s) : v.sku = k := by
  rw [skuOk, List.all_eq_true] at hs
  simpa using hs (k, v) h

theorem skuOk_dictInsert {s : Store} {k : String} {v : Product}
    (hs : skuOk s = true) (hv : v.sku = k) : skuOk (dictInsert s k v) = true := by
  rw [skuOk, List.all_eq_true] at hs ⊢
  unfold dictInsert
  by_cases hany : s.any (fun kv => kv.1 == k) = true
  · rw [if_pos hany]
    intro kv hkv
    rcases List.mem_map.mp hkv with ⟨kv', hkv', rfl⟩
    by_cases hk : kv'.1 == k
    · simp [hk, hv]
    · simp only [hk]
      rw [if_neg (by simp_all)]
      exact hs kv' hkv'
  · rw [if_neg hany]
    intro kv hkv
    rcases List.mem_append.mp hkv with hkv | hkv
    · exact hs kv hkv
    · rcases List.mem_singleton.mp hkv with rfl
      simp [hv]

theorem skuOk_dictDelete {s : Store} {k : String}
    (hs : skuOk s = true) : skuOk (dictDelete s k) = true := by
  rw [skuOk, List.all_eq_true] at hs ⊢
  intro kv hkv
  exact hs kv (List.mem_of_mem_filter hkv)

theorem phone_validate_sku {p : Payload} {ph : PhoneProduct}
    (h : PhoneProduct.model_validate p = .ok ph) : p.sku = some ph.sku := by
  unfold PhoneProduct.model_validate at h
  split at h
  next sku name brand price d hl a hkind hsku hname hbrand hprice hd hh ha =>
    split_ifs at h
    injection h with h
    subst h
    exact hsku
  next => simp at h

theorem plan_validate_sku {p : Payload} {pl : PlanProduct}
    (h : PlanProduct.model_validate p = .ok pl) : p.sku = some pl.sku := by
  unfold PlanProduct.model_validate at h
  split at h
  next sku name fee d hl a hkind hsku hname hfee hd hh ha =>
    split_ifs at h
    injection h with h
    subst h
    exact hsku
  next => simp at h

theorem model_validate_sku {k : Kind} {p : Payload} {prod : Product}
    (h : model_validate k p = .ok prod) : p.sku = some prod.sku := by
  cases k with
  | phone =>
    unfold model_validate at h
    cases hv : PhoneProduct.model_validate p with
    | error e => rw [hv] at h; simp [Except.map] at h
    | ok ph =>
      rw [hv] at h
      simp only [Except.map] at h
      injection h with h
      subst h
      exact phone_validate_sku hv
  | plan =>
    unfold model_validate at h
    cases hv : PlanProduct.model_validate p with
    | error e => rw [hv] at h; simp [Except.map] at h
    | ok pl =>
      rw [hv] at h
      simp only [Except.map] at h
      injection h with h
      subst h
      exact plan_validate_sku hv

theorem Product.model_dump_sku (p : Product) : (Product.model_dump p).sku = some p.sku := by
  cases p <;> rfl

theorem upsertLoop_skuOk : ∀ (items : List Payload) (s : Store) (c : Nat),
    skuOk s = true → skuOk ((upsertLoop s c items).2) = true
| [], _, _, hs => hs
| it :: rest, s, c, hs => by
  cases hk : it.kind with
  | none =>
    simp only [upsertLoop, hk]
    exact upsertLoop_skuOk rest s c hs
  | some k =>
    cases hv : model_validate k it with
    | error e =>
      simp only [upsertLoop, hk, hv]
      exact hs
    | ok prod =>
      simp only [upsertLoop, hk, hv]
      exact upsertLoop_skuOk rest _ _ (skuOk_dictInsert hs rfl)

/-- C2 counterexample: the claim says every stored record's SKU field
equals its storage key in every reachable state; but `update` merges a
differing `sku` from the partial into the record while storing it back
under the ORIGINAL key, so the reachable store `update(st1, "p1",
{sku: "p2"})` holds a record whose `sku` field `"p2"` differs from its
key `"p1"`. -/
theorem C2_counterexample :
    (update st1 "p1" updSkuP).2 = [("p1", Product.phone phA2)] ∧
      skuOk [("p1", Product.phone phA2)] = false := ⟨by decide, by decide⟩

/-- C2 as amended: `update` never changes the identity key — the key
sequence of the store is unchanged, whatever the partial contains — and
the SKU-field/key agreement invariant is maintained by `create`,
`upsert_many` and `delete` always, and by `update` whenever the partial
does not smuggle in a different `sku` value (absent, or equal to the
addressed key). -/
theorem C2_sku_never_mutated :
    (∀ (s : Store) (sku : String) (upd : Payload),
      ((update s sku upd).2).map Prod.fst = s.map Prod.fst) ∧
    (∀ (s : Store) (sku : String) (upd : Payload), skuOk s = true →
      (upd.sku = none ∨ upd.sku = some sku) → skuOk ((update s sku upd).2) = true) ∧
    (∀ (s : Store) (p : Payload), skuOk s = true → skuOk ((create s p).2) = true) ∧
    (∀ (s : Store) (items : List Payload), skuOk s = true →
      skuOk ((upsert_many s items).2) = true) ∧
    (∀ (s : Store) (sku : String), skuOk s = true → skuOk ((delete s sku).2) = true) := by
  refine ⟨?_, ?_, ?_, ?_, ?_⟩
  · intro s sku upd
    cases hget : dictGet s sku with
    | none => simp only [update, hget]
    | some ex =>
      cases hk : (Payload.update ex.model_dump upd).kind with
      | none => simp only [update, hget, hk]
      | some k =>
        cases hv : model_validate k (Payload.update ex.model_dump upd) with
        | error e => simp only [update, hget, hk, hv]
        | ok prod =>
          simp only [update, hget, hk, hv]
          exact dictInsert_keys hget
  · intro s sku upd hs hupd
    cases hget : dictGet s sku with
    | none => simp only [update, hget]; exact hs
    | some ex =>
      cases hk : (Payload.update ex.model_dump upd).kind with
      | none => simp only [update, hget, hk]; exact hs
      | some k =>
        cases hv : model_validate k (Payload.update ex.model_dump upd) with
        | error e => simp only [update, hget, hk, hv]; exact hs
        | ok prod =>
          simp only [update, hget, hk, hv]
          have hsku : (Payload.update ex.model_dump upd).sku = some prod.sku :=
            model_validate_sku hv
          have hmerge : (Payload.update ex.model_dump upd).sku = some sku := by
            rcases hupd with hnone | hsome
            · show (upd.sku <|> (Product.model_dump ex).sku) = some sku
              rw [hnone, Product.model_dump_sku ex]
              simp [skuOk_mem hs (dictGet_some_mem hget)]
            · show (upd.sku <|> (Product.model_dump ex).sku) = some sku
              rw [hsome]
              rfl
          exact skuOk_dictInsert hs (Option.some.inj (hsku.symm.trans hmerge))
  · intro s p hs
    cases hk : p.kind with
    | none => simp only [create, hk]; exact hs
    | some k =>
      cases hv : model_validate k p with
      | error e => simp only [create, hk, hv]; exact hs
      | ok prod =>
        simp only [create, hk, hv]
        by_cases hdup : (dictGet s prod.sku).isSome = true
        · rw [if_pos hdup]
          exact hs
        · rw [if_neg hdup]
          exact skuOk_dictInsert hs rfl
  · intro s items hs
    exact upsertLoop_skuOk items s 0 hs
  · intro s sku hs
    unfold delete
    by_cases hmem : (dictGet s sku).isSome = true
    · rw [if_pos hmem]
      exact skuOk_dictDelete hs
    · rw [if_neg hmem]
      exact hs

/-- C2 witness: the amended parts applied on the fixture store — the key
sequence survives the sku-smuggling update, and the invariant survives a
name-only update, a create, an upsert batch and a delete. -/
theorem C2_witness :
    ((update st1 "p1" updSkuP).2).map Prod.fst = st1.map Prod.fst ∧
    skuOk ((update st1 "p1"
      ⟨none, none, some "Alpha2", none, none, none, none, none, none, none⟩).2) = true ∧
    skuOk ((create st1 goodP).2) = true ∧
    skuOk ((upsert_many st1 [goodP, badKindP]).2) = true ∧
    skuOk ((delete st1 "p1").2) = true :=
  ⟨C2_sku_never_mutated.1 st1 "p1" updSkuP,
   C2_sku_never_mutated.2.1 st1 "p1" _ (by decide) (Or.inl rfl),
   C2_sku_never_mutated.2.2.1 st1 goodP (by decide),
   C2_sku_never_mutated.2.2.2.1 st1 [goodP, badKindP] (by decide),
   C2_sku_never_mutated.2.2.2.2 st1 "p1" (by decide)⟩

/-- When every payload is skippable-or-valid, the loop raises nothing and
adds one to the count per recognized-kind payload. -/
theorem upsertLoop_all_valid : ∀ (items : List Payload) (s : Store) (c : Nat),
    allValid items = true →
    (upsertLoop s c items).1 = .ok (c + items.countP (fun it => it.kind.isSome))
| [], s, c, _ => by simp [upsertLoop]
| it :: rest, s, c, h => by
  rw [allValid, List.all_cons, Bool.and_eq_true] at h
  obtain ⟨h1, h2⟩ := h
  cases hk : it.kind with
  | none =>
    simp only [upsertLoop, hk]
    rw [upsertLoop_all_valid rest s c h2]
    simp [List.countP_cons, hk]
  | some k =>
    cases hv : model_validate k it with
    | error e =>
      rw [validOrSkipped, hk] at h1
      simp only [hv] at h1
      cases h1
    | ok prod =>
      simp only [upsertLoop, hk, hv]
      rw [upsertLoop_all_valid rest _ (c + 1) h2]
      have : c + 1 + rest.countP (fun it => it.kind.isSome) =
          c + (it :: rest).countP (fun it => it.kind.isSome) := by
        rw [List.countP_cons]
        simp [hk]
        omega
      rw [this]

/-- C1 counterexample: the claim says a payload failing validation is
skipped silently and a batch of one valid and one invalid payload returns
1; but only the unknown-kind test is `continue`d past — `badShapeP`
(recognized kind, negative price) raises out of the loop, aborting the
batch with the earlier write already applied and no count returned. -/
theorem C1_counterexample :
    upsert_many [] [goodP, badShapeP] =
      (.error .invalidShape, [("p9", goodProd)]) := by decide

/-- C1 as amended: payloads with a missing or unrecognized kind are
skipped silently (no store write, no count, the batch continues); when
every payload of the batch is skippable-or-valid, `upsert_many` raises
nothing and returns exactly the number of recognized-kind payloads, each
created-or-replaced by its own SKU; and with one valid and one
unrecognized-kind payload it returns 1, the valid item retrievable via
`get`, the invalid one absent.  (A recognized-kind payload that fails
shape validation instead raises, per the counterexample.) -/
theorem C1_upsert_many_semantics :
    (∀ (s : Store) (items : List Payload), allValid items = true →
      (upsert_many s items).1 = .ok (items.countP (fun it => it.kind.isSome))) ∧
    (∀ (s : Store) (c : Nat) (it : Payload) (rest : List Payload), it.kind = none →
      upsertLoop s c (it :: rest) = upsertLoop s c rest) ∧
    (upsert_many [] [goodP, badKindP] = (.ok 1, [("p9", goodProd)]) ∧
      get (upsert_many [] [goodP, badKindP]).2 "p9" = .ok goodProd ∧
      get (upsert_many [] [goodP, badKindP]).2 "px" = .error .notFound) := by
  refine ⟨?_, ?_, by decide, by decide, by decide⟩
  · intro s items h
    unfold upsert_many
    rw [upsertLoop_all_valid items s 0 h]
    simp
  · intro s c it rest h
    simp only [upsertLoop, h]

/-- C1 witness: the general parts applied at concrete batches. -/
theorem C1_witness :
    (upsert_many [] [goodP, badKindP]).1 =
      .ok ([goodP, badKindP].countP (fun it => it.kind.isSome)) ∧
    upsertLoop [] 0 [badKindP] = upsertLoop [] 0 [] :=
  ⟨C1_upsert_many_semantics.1 [] [goodP, badKindP] (by decide),
   C1_upsert_many_semantics.2.1 [] 0 badKindP [] (by decide)⟩

/-- C5 counterexample: the claim says a failing operation leaves the
store exactly as before the call; but `upsert_many` of one valid and one
shape-invalid payload raises `ValidationError` while keeping the valid
item it had already written into the (initially empty) store. -/
theorem C5_counterexample :
    (upsert_many [] [goodP, badShapeP]).1 = .error .invalidShape ∧
      (upsert_many [] [goodP, badShapeP]).2 ≠ [] := ⟨by decide, by decide⟩

/-- C5 as amended: `create`, `update` and `delete` validate before
mutating, so on any failure the store is exactly what it was; and
`upsert_many` never propagates an error for skippable (unrecognized-kind)
payloads — it only raises when a recognized-kind payload fails shape
validation, and then the earlier writes of the batch remain applied, per
the counterexample. -/
theorem C5_no_partial_mutation_on_failure :
    (∀ (s : Store) (p : Payload) (e : SvcError),
      (create s p).1 = .error e → (create s p).2 = s) ∧
    (∀ (s : Store) (sku : String) (u : Payload) (e : SvcError),
      (update s sku u).1 = .error e → (update s sku u).2 = s) ∧
    (∀ (s : Store) (sku : String) (e : SvcError),
      (delete s sku).1 = .error e → (delete s sku).2 = s) ∧
    (∀ (s : Store) (items : List Payload), allValid items = true →
      ∃ n, (upsert_many s items).1 = Except.ok n) := by
  refine ⟨?_, ?_, ?_, ?_⟩
  · intro s p e h
    cases hk : p.kind with
    | none => simp only [create, hk]
    | some k =>
      cases hv : model_validate k p with
      | error e2 => simp only [create, hk, hv]
      | ok prod =>
        simp only [create, hk, hv] at h ⊢
        by_cases hdup : (dictGet s prod.sku).isSome = true
        · rw [if_pos hdup]
        · rw [if_neg hdup] at h
          simp at h
  · intro s sku u e h
    cases hget : dictGet s sku with
    | none => simp only [update, hget]
    | some ex =>
      cases hk : (Payload.update ex.model_dump u).kind with
      | none => simp only [update, hget, hk]
      | some k =>
        cases hv : model_validate k (Payload.update ex.model_dump u) with
        | error e2 => simp only [update, hget, hk, hv]
        | ok prod =>
          simp only [update, hget, hk, hv] at h
          simp at h
  · intro s sku e h
    unfold delete at h ⊢
    by_cases hmem : (dictGet s sku).isSome = true
    · rw [if_pos hmem] at h
      simp at h
    · rw [if_neg hmem]
  · intro s items h
    exact ⟨items.countP (fun it => it.kind.isSome), by
      unfold upsert_many
      rw [upsertLoop_all_valid items s 0 h]
      simp⟩

/-- C5 witness: a duplicate-key create, a not-found update and delete all
land back on the untouched fixture store, and a skippable batch upserts
without an error. -/
theorem C5_witness :
    (create st1 dupP).2 = st1 ∧
    (update st1 "nothere" updSkuP).2 = st1 ∧
    (delete st1 "nothere").2 = st1 ∧
    (∃ n, (upsert_many st1 [goodP, badKindP]).1 = Except.ok n) :=
  ⟨C5_no_partial_mutation_on_failure.1 st1 dupP .duplicateKey (by decide),
   C5_no_partial_mutation_on_failure.2.1 st1 "nothere" updSkuP .notFound (by decide),
   C5_no_partial_mutation_on_failure.2.2.1 st1 "nothere" .notFound (by decide),
   C5_no_partial_mutation_on_failure.2.2.2 st1 [goodP, badKindP] (by decide)⟩

/-! Sort-token plumbing for C8. -/

theorem sortKey_unrecognized {t : String}
    (h : t ∉ ["name", "-name", "upfront_price", "-upfront_price",
      "monthly_fee", "-monthly_fee"]) (p : Product) :
    _sort_key p t = .str (strLower p.name) := by
  simp only [List.mem_cons, List.mem_singleton, not_or] at h
  obtain ⟨h1, h2, h3, h4, h5, h6⟩ := h
  unfold _sort_key
  rw [if_neg (by tauto), if_neg (by tauto), if_neg (by tauto)]

theorem dash_append {t : String} (h : strStartsWithDash t = true) :
    "-" ++ strDropOne t = t := by
  rcases t with ⟨data⟩
  cases data with
  | nil => simp [strStartsWithDash] at h
  | cons c rest =>
    have hc : c = '-' := by
      have := h
      unfold strStartsWithDash at this
      simpa using this
    subst hc
    rfl

theorem list_congr_of_sortSpec {store : Store} {q : Option String} {kind : Option Kind}
    {brand network : Option String} {minU maxU : Option Int} {t1 t2 : String}
    (h2 : (sortSpec t1).2 = (sortSpec t2).2)
    (h1 : ∀ p, _sort_key p (sortSpec t1).1 = _sort_key p (sortSpec t2).1)
    (page ps : Int) :
    list store q kind brand network minU maxU t1 page ps =
      list store q kind brand network minU maxU t2 page ps := by
  have hQ : listQ store q kind brand network minU maxU t1 =
      listQ store q kind brand network minU maxU t2 := by
    unfold listQ pySort
    congr 1
    funext a b
    unfold pySortLe
    rw [h2, h1 a, h1 b]
  unfold list
  rw [hQ]

/-- C8 counterexample: the claim says any unrecognized sort token falls
back to ascending lowercased-name order; but `"-zzz"` sets
`reverse=True` before the key fallback, so the fixture store comes back
in descending name order near the ascending one of `"name"`. -/
theorem C8_counterexample :
    (list st0 none none none none none none "-zzz" 1 12).1.map Product.name =
        ["Gamma", "Beta", "Alpha"] ∧
      (list st0 none none none none none none "-zzz" 1 12).1 ≠
        (list st0 none none none none none none "name" 1 12).1 :=
  ⟨by decide, by decide⟩

/-- C8 as amended: an unrecognized sort token falls back to
lowercased-name order — ascending when the token does not start with
`"-"` (exactly as sorting by `"name"`), descending when it does (exactly
as `"-name"`); and for EVERY sort token the ordering is stable: the
records carrying any fixed sort key appear in the sorted sequence in
exactly their original catalog iteration order. -/
theorem C8_sort_fallback_and_stability :
    (∀ (store : Store) (q : Option String) (kind : Option Kind)
      (brand network : Option String) (minU maxU : Option Int) (page ps : Int)
      (t : String),
      t ∉ ["name", "-name", "upfront_price", "-upfront_price",
        "monthly_fee", "-monthly_fee"] →
      list store q kind brand network minU maxU t page ps =
        list store q kind brand network minU maxU
          (if strStartsWithDash t then "-name" else "name") page ps) ∧
    (∀ (store : Store) (q : Option String) (kind : Option Kind)
      (brand network : Option String) (minU maxU : Option Int) (sort : String)
      (kv : SKey),
      (listQ store q kind brand network minU maxU sort).filter
          (fun p => decide (_sort_key p (sortSpec sort).1 = kv)) =
        (matchItems store q kind brand network minU maxU).filter
          (fun p => decide (_sort_key p (sortSpec sort).1 = kv))) := by
  constructor
  · intro store q kind brand network minU maxU page ps t ht
    cases hd : strStartsWithDash t with
    | false =>
      simp only [hd, if_false, Bool.false_eq_true]
      by_cases he : t = ""
      · subst he
        exact list_congr_of_sortSpec (by decide) (fun p => by rfl) page ps
      · have hspec : sortSpec t = (t, false) := by
          simp [sortSpec, hd, he]
        apply list_congr_of_sortSpec
        · rw [hspec]
          rfl
        · intro p
          rw [hspec]
          show _sort_key p t = _
          rw [sortKey_unrecognized ht p]
          rfl
    | true =>
      simp only [hd, if_true]
      have hspec : sortSpec t = (t, true) := by
        simp [sortSpec, hd, dash_append hd]
      apply list_congr_of_sortSpec
      · rw [hspec]
        rfl
      · intro p
        rw [hspec]
        show _sort_key p t = _
        rw [sortKey_unrecognized ht p]
        rfl
  · intro store q kind brand network minU maxU sort kv
    unfold listQ pySort
    exact filter_stableSort (pySortLe (sortSpec sort).1 (sortSpec sort).2)
      (fun p => _sort_key p (sortSpec sort).1) kv
      (fun a b hab => pySortLe_refl hab) _

/-- C8 witness: the fallback applied at the concrete unrecognized token
`"-zzz"` on the fixture store. -/
theorem C8_witness :
    list st0 none none none none none none "-zzz" 1 12 =
      list st0 none none none none none none
        (if strStartsWithDash "-zzz" then "-name" else "name") 1 12 :=
  C8_sort_fallback_and_stability.1 st0 none none none none none none 1 12 "-zzz"
    (by decide)

/-! Pagination plumbing for C9. -/

theorem pySlice_eq (l : List Product) (a b : Int) (ha : 0 ≤ a) (hb : 0 ≤ b) :
    pySlice l a b = (l.drop a.toNat).take (b.toNat - a.toNat) := by
  simp only [pySlice]
  rw [if_neg (by omega), if_neg (by omega)]
  have h1 : (min b ((l.length : Nat) : Int)).toNat = min b.toNat l.length := by omega
  have h2 : (min a ((l.length : Nat) : Int)).toNat = min a.toNat l.length := by omega
  rw [h1, h2]
  have ht : l.take (min b.toNat l.length) = l.take b.toNat := by
    rw [List.take_eq_take]
    omega
  rw [ht]
  by_cases hle : a.toNat ≤ l.length
  · rw [min_eq_left hle, List.drop_take b.toNat a.toNat l]
  · rw [min_eq_right (by omega)]
    rw [List.drop_eq_nil_of_le (by simp [List.length_take]),
      List.drop_eq_nil_of_le (by omega), List.take_nil]

theorem ceil_mul_ge (a p : Nat) (hp : 0 < p) : a ≤ ((a + p - 1) / p) * p := by
  rcases Nat.eq_zero_or_pos a with rfl | ha
  · simp
  · rw [show a + p - 1 = (a - 1) + p by omega, Nat.add_div_right _ hp, Nat.succ_mul]
    have h1 := Nat.div_add_mod (a - 1) p
    have h2 := Nat.mod_lt (a - 1) hp
    rw [Nat.mul_comm]
    omega

theorem chunks_flatten {α : Type} (p : Nat) (hp : 0 < p) :
    ∀ (n : Nat) (l : List α), l.length ≤ n * p →
      ((List.range n).map (fun i => (l.drop (i * p)).take p)).flatten = l
| 0, l, h => by
  have : l = [] := List.eq_nil_of_length_eq_zero (by omega)
  subst this
  simp
| n + 1, l, h => by
  rw [List.range_succ_eq_map]
  simp only [List.map_cons, List.map_map, List.flatten_cons, Nat.zero_mul, List.drop_zero]
  have hcongr : (List.range n).map ((fun i => (l.drop (i * p)).take p) ∘ Nat.succ) =
      (List.range n).map (fun i => ((l.drop p).drop (i * p)).take p) := by
    apply List.map_congr_left
    intro i _
    simp only [Function.comp]
    congr 1
    rw [List.drop_drop]
    congr 1
    rw [Nat.succ_mul]
    omega
  rw [hcongr, chunks_flatten p hp n (l.drop p)
    (by rw [List.length_drop, Nat.succ_mul] at *; omega)]
  exact List.take_append_drop p l

theorem list_page_eq (store : Store) (q : Option String) (kind : Option Kind)
    (brand network : Option String) (minU maxU : Option Int) (sort : String)
    (ps : Int) (hps : 0 < ps) (i : Nat) :
    (list store q kind brand network minU maxU sort ((i : Int) + 1) ps).1 =
      ((listQ store q kind brand network minU maxU sort).drop (i * ps.toNat)).take
        ps.toNat := by
  lift ps to Nat using hps.le with N hN
  rw [list_fst]
  have hstart : max 0 (((i : Int) + 1 - 1) * N) = ((i * N : Nat) : Int) := by
    rw [show ((i : Int) + 1 - 1) = (i : Int) by ring]
    push_cast
    rw [max_eq_right (by positivity)]
  rw [hstart, pySlice_eq _ _ _ (by omega) (by omega)]
  rw [show (((i * N : Nat) : Int) + N) = ((i * N + N : Nat) : Int) by push_cast; ring]
  rw [Int.toNat_natCast, Int.toNat_natCast, Int.toNat_natCast]
  congr 1
  omega

/-- C9: for every fixed store state, filter set, sort token and positive
page size, concatenating the items of pages `1 .. ceil(total/pageSize)`
reproduces the full filtered-and-sorted sequence exactly once with no
gaps or duplicates; any page beyond that range returns an empty slice
(not an error); and the `total` returned with every page — whatever the
page argument — equals the full filtered match count, independent of the
pagination window. -/
theorem C9_pagination_partitions (store : Store) (q : Option String) (kind : Option Kind)
    (brand network : Option String) (minU maxU : Option Int) (sort : String)
    (ps page : Int) (hps : 0 < ps) :
    (((List.range
        (((listQ store q kind brand network minU maxU sort).length + ps.toNat - 1) /
          ps.toNat)).map
        (fun (i : Nat) => (list store q kind brand network minU maxU sort ((i : Int) + 1) ps).1)).flatten =
      listQ store q kind brand network minU maxU sort) ∧
    (((((listQ store q kind brand network minU maxU sort).length + ps.toNat - 1) /
        ps.toNat : Nat) : Int) < page →
      (list store q kind brand network minU maxU sort page ps).1 = []) ∧
    ((list store q kind brand network minU maxU sort page ps).2 =
      (listQ store q kind brand network minU maxU sort).length) := by
  have hN : 0 < ps.toNat := by omega
  refine ⟨?_, ?_, list_snd store q kind brand network minU maxU sort page ps⟩
  · rw [List.map_congr_left
      (fun i _ => list_page_eq store q kind brand network minU maxU sort ps hps i)]
    exact chunks_flatten ps.toNat hN _ _
      (ceil_mul_ge (listQ store q kind brand network minU maxU sort).length ps.toNat hN)
  · intro hpage
    rw [list_fst, pySlice_eq _ _ _ (by positivity) (by positivity)]
    have hceil := ceil_mul_ge (listQ store q kind brand network minU maxU sort).length
      ps.toNat hN
    have hmono : ((((listQ store q kind brand network minU maxU sort).length + ps.toNat
        - 1) / ps.toNat : Nat) : Int) * ps ≤ (page - 1) * ps :=
      mul_le_mul_of_nonneg_right (by omega) (by omega)
    have hlen : ((listQ store q kind brand network minU maxU sort).length : Int) ≤
        (page - 1) * ps := by
      refine le_trans ?_ hmono
      rw [show ps = ((ps.toNat : Nat) : Int) by omega, ← Nat.cast_mul]
      exact_mod_cast hceil
    rw [List.drop_eq_nil_of_le (by omega), List.take_nil]

/-- C9 witness: the partition, the out-of-range page and the invariant
total, at the fixture store with page size 2 and overlarge page 5. -/
theorem C9_witness :
    (((List.range
        (((listQ st0 none none none none none none "name").length + (2 : Int).toNat - 1) /
          (2 : Int).toNat)).map
        (fun (i : Nat) => (list st0 none none none none none none "name" ((i : Int) + 1) 2).1)).flatten =
      listQ st0 none none none none none none "name") ∧
    (list st0 none none none none none none "name" 5 2).1 = [] ∧
    (list st0 none none none none none none "name" 5 2).2 =
      (listQ st0 none none none none none none "name").length :=
  ⟨(C9_pagination_partitions st0 none none none none none none "name" 2 5 (by decide)).1,
   (C9_pagination_partitions st0 none none none none none none "name" 2 5 (by decide)).2.1
     (by decide),
   (C9_pagination_partitions st0 none none none none none none "name" 2 5 (by decide)).2.2⟩

/-! Dictionary refinement for C6: `dictGet` after each write equals the
abstract per-key map semantics. -/

theorem any_key_iff : ∀ (s : Store) (k : String),
    s.any (fun kv => kv.1 == k) = (dictGet s k).isSome
| [], _ => rfl
| kv :: s, k => by
  by_cases h : (kv.1 == k) = true
  · simp [dictGet, List.find?_cons, h]
  · simp only [List.any_cons, h, Bool.false_or]
    rw [any_key_iff s k]
    simp [dictGet, List.find?_cons, h]

theorem dictGet_map_replace (k : String) (v : Product) (x : String) : ∀ (s : Store),
    dictGet (s.map (fun kv => if kv.1 == k then (k, v) else kv)) x =
      if x = k then (if (dictGet s k).isSome then some v else none) else dictGet s x
| [] => by
  by_cases hx : x = k <;> simp [dictGet, hx]
| kv :: s => by
  simp only [List.map_cons]
  by_cases hkv : (kv.1 == k) = true
  · rw [if_pos hkv]
    have hk1 : kv.1 = k := by simpa using hkv
    by_cases hx : x = k
    · subst hx
      simp [dictGet, List.find?_cons, hkv, hk1]
    · have h1 : (k == x) = false := by simp [Ne.symm hx]
      have h2 : (kv.1 == x) = false := by simp [hk1, Ne.symm hx]
      have ih := dictGet_map_replace k v x s
      simp only [dictGet, List.find?_cons, h1, h2, if_neg hx] at ih ⊢
      exact ih
  · rw [if_neg hkv]
    by_cases hx : x = k
    · subst hx
      have h2 : (kv.1 == x) = false := by simpa using hkv
      have ih := dictGet_map_replace x v x s
      simp only [dictGet, List.find?_cons, h2, if_pos rfl] at ih ⊢
      exact ih
    · by_cases hkx : (kv.1 == x) = true
      · simp [dictGet, List.find?_cons, hkx, hx]
      · have ih := dictGet_map_replace k v x s
        simp only [dictGet, List.find?_cons, hkx, if_neg hx] at ih ⊢
        exact ih

theorem dictGet_append (s1 s2 : Store) (x : String) :
    dictGet (s1 ++ s2) x =
      match dictGet s1 x with
      | some w => some w
      | none => dictGet s2 x := by
  induction s1 with
  | nil => simp [dictGet]
  | cons kv s ih =>
    by_cases hkx : (kv.1 == x) = true
    · simp [dictGet, List.find?_cons, hkx]
    · simp only [List.cons_append]
      simp [dictGet, List.find?_cons, hkx] at ih ⊢
      exact ih

theorem dictGet_dictInsert (s : Store) (k : String) (v : Product) (x : String) :
    dictGet (dictInsert s k v) x = if x = k then some v else dictGet s x := by
  unfold dictInsert
  by_cases hany : s.any (fun kv => kv.1 == k) = true
  · rw [if_pos hany, dictGet_map_replace]
    have hsome : (dictGet s k).isSome = true := by rw [← any_key_iff]; exact hany
    by_cases hx : x = k <;> simp [hx, hsome]
  · rw [if_neg hany, dictGet_append]
    have hnone : dictGet s k = none := by
      rw [any_key_iff] at hany
      exact Option.not_isSome_iff_eq_none.mp (by simpa using hany)
    by_cases hx : x = k
    · subst hx
      rw [hnone]
      simp [dictGet, List.find?_cons]
    · rw [if_neg hx]
      cases hgs : dictGet s x with
      | some w => rfl
      | none => simp [dictGet, List.find?_cons, show (k == x) = false by simp [Ne.symm hx]]

theorem dictGet_dictDelete (s : Store) (k x : String) :
    dictGet (dictDelete s k) x = if x = k then none else dictGet s x := by
  induction s with
  | nil => by_cases hx : x = k <;> simp [dictGet, dictDelete, hx]
  | cons kv s ih =>
    by_cases hk : (kv.1 != k) = true
    · simp only [dictDelete, List.filter_cons, hk, if_true]
      by_cases hkx : (kv.1 == x) = true
      · have h1 : kv.1 = x := by simpa using hkx
        have h2 : x ≠ k := by
          intro hc
          subst hc
          simp [h1] at hk
        simp [dictGet, List.find?_cons, hkx, h2]
      · simp only [dictGet, List.find?_cons, hkx]
        simpa [dictGet, dictDelete] using ih
    · have h1 : kv.1 = k := by simpa using hk
      simp only [dictDelete, List.filter_cons, hk, if_false]
      by_cases hx : x = k
      · subst hx
        simpa [dictGet, dictDelete, h1] using ih
      · simp only [dictGet, List.find?_cons] at ih ⊢
        have : (kv.1 == x) = false := by simp [h1, Ne.symm hx]
        simpa [dictGet, dictDelete, this, hx] using ih

theorem dictGet_dictInsert_funext (s : Store) (k : String) (v : Product) :
    dictGet (dictInsert s k v) = absWrite (dictGet s) k v :=
  funext (fun x => by rw [dictGet_dictInsert]; rfl)

theorem dictGet_create (s : Store) (p : Payload) (x : String) :
    dictGet ((create s p).2) x = absCreate (dictGet s) p x := by
  cases hk : p.kind with
  | none => simp only [create, absCreate, hk]
  | some k =>
    cases hv : model_validate k p with
    | error e => simp only [create, absCreate, hk, hv]
    | ok prod =>
      simp only [create, absCreate, hk, hv]
      by_cases hdup : (dictGet s prod.sku).isSome = true
      · rw [if_pos hdup, if_pos hdup]
      · rw [if_neg hdup, if_neg hdup]
        rw [dictGet_dictInsert]
        rfl

theorem dictGet_update (s : Store) (sku : String) (upd : Payload) (x : String) :
    dictGet ((update s sku upd).2) x = absUpdate (dictGet s) sku upd x := by
  cases hget : dictGet s sku with
  | none => simp only [update, absUpdate, hget]
  | some ex =>
    cases hk : (Payload.update ex.model_dump upd).kind with
    | none => simp only [update, absUpdate, hget, hk]
    | some k =>
      cases hv : model_validate k (Payload.update ex.model_dump upd) with
      | error e => simp only [update, absUpdate, hget, hk, hv]
      | ok prod =>
        simp only [update, absUpdate, hget, hk, hv]
        rw [dictGet_dictInsert]
        rfl

theorem dictGet_upsertLoop : ∀ (items : List Payload) (s : Store) (c : Nat) (x : String),
    dictGet ((upsertLoop s c items).2) x = absUpsert (dictGet s) items x
| [], _, _, _ => rfl
| it :: rest, s, c, x => by
  cases hk : it.kind with
  | none =>
    simp only [upsertLoop, absUpsert, hk]
    exact dictGet_upsertLoop rest s c x
  | some k =>
    cases hv : model_validate k it with
    | error e => simp only [upsertLoop, absUpsert, hk, hv]
    | ok prod =>
      simp only [upsertLoop, absUpsert, hk, hv]
      rw [dictGet_upsertLoop rest _ (c + 1) x, dictGet_dictInsert_funext]

theorem dictGet_delete (s : Store) (sku : String) (x : String) :
    dictGet ((delete s sku).2) x = absDelete (dictGet s) sku x := by
  unfold delete absDelete
  by_cases hmem : (dictGet s sku).isSome = true
  · rw [if_pos hmem]
    cases hget : dictGet s sku with
    | none => rw [hget] at hmem; simp at hmem
    | some w =>
      simp only
      rw [dictGet_dictDelete]
  · rw [if_neg hmem]
    cases hget : dictGet s sku with
    | none => simp only
    | some w => rw [hget] at hmem; simp at hmem

theorem dictGet_applyOp (s : Store) (op : Op) (x : String) :
    dictGet (applyOp s op) x = absOp (dictGet s) op x := by
  cases op with
  | createOp p => exact dictGet_create s p x
  | updateOp sku p => exact dictGet_update s sku p x
  | upsertManyOp ps => exact dictGet_upsertLoop ps s 0 x
  | deleteOp sku => exact dictGet_delete s sku x

theorem dictGet_applyOps : ∀ (ops : List Op) (s : Store) (x : String),
    dictGet (applyOps s ops) x = lastWritten (dictGet s) ops x
| [], _, _ => rfl
| op :: ops, s, x => by
  show dictGet (applyOps (applyOp s op) ops) x = lastWritten (absOp (dictGet s) op) ops x
  rw [dictGet_applyOps ops (applyOp s op) x]
  congr 1
  exact funext (fun y => dictGet_applyOp s op y)

/-- C6: after every sequence of create/update/upsertMany/delete calls,
`get(sku)` returns exactly the record most recently written for that SKU
(per the abstract last-write-per-key semantics `lastWritten`, starting
from whatever the initial store held), and fails with `NotFound` when the
SKU was deleted and not rewritten, or never created; and `get` is not
filtered by the active flag — whatever record is stored is returned,
`active` or not. -/
theorem C6_get_returns_most_recent_write :
    (∀ (s : Store) (ops : List Op) (sku : String),
      get (applyOps s ops) sku =
        match lastWritten (dictGet s) ops sku with
        | some p => .ok p
        | none => .error .notFound) ∧
    (∀ (s : Store) (sku : String) (p : Product),
      dictGet s sku = some p → get s sku = .ok p) := by
  constructor
  · intro s ops sku
    unfold get
    rw [dictGet_applyOps]
  · intro s sku p h
    unfold get
    rw [h]

/-- C6 witness: a create-update-delete-recreate sequence against the
fixture store, and a direct lookup of a stored inactive record. -/
theorem C6_witness :
    get (applyOps st1 [.createOp goodP, .deleteOp "p9", .createOp dupP]) "p9" =
      (match lastWritten (dictGet st1)
          [.createOp goodP, .deleteOp "p9", .createOp dupP] "p9" with
        | some p => .ok p
        | none => .error .notFound) ∧
    get [("p0", Product.phone ⟨"p0", "Old", "Acme", 1, "d", [], false⟩)] "p0" =
      .ok (Product.phone ⟨"p0", "Old", "Acme", 1, "d", [], false⟩) :=
  ⟨C6_get_returns_most_recent_write.1 st1
      [.createOp goodP, .deleteOp "p9", .createOp dupP] "p9",
   C6_get_returns_most_recent_write.2 [("p0", .phone ⟨"p0", "Old", "Acme", 1, "d", [], false⟩)]
      "p0" (.phone ⟨"p0", "Old", "Acme", 1, "d", [], false⟩) (by decide)⟩

end Catalog


